import Mathlib

/-!
Verification of the D&D Discord bot (`src/main.py`): a shallow embedding of
its dice parser, character registry, combat coordinator and persistence
layer, with theorems checking the specification's claims against the code.
-/

namespace DndBot

/-! ### Dice roller: `parse_dice_expression` (main.py lines 89-104). -/

/-- ASCII whitespace stripped by Python `int(...)` before parsing. -/
def isPySpace (c : Char) : Bool :=
  c = ' ' || c = '\t' || c = '\n' || c = '\r' || c = '\x0b' || c = '\x0c'

/-- Strip leading and trailing whitespace, as Python `int` does. -/
def stripSpaces (cs : List Char) : List Char :=
  ((cs.dropWhile isPySpace).reverse.dropWhile isPySpace).reverse

/-- Numeric value of an ASCII digit character. -/
def digitVal (c : Char) : Nat := c.toNat - 48

/-- Digits of a decimal literal after the first one.  Python `int` allows a
single underscore strictly between two digits and rejects anything else. -/
def pyDigitsAux : List Char → Nat → Option Nat
  | [], acc => some acc
  | c :: cs, acc =>
    if c = '_' then
      match cs with
      | [] => none
      | d :: cs2 => if d.isDigit then pyDigitsAux cs2 (acc * 10 + digitVal d) else none
    else if c.isDigit then pyDigitsAux cs (acc * 10 + digitVal c)
    else none

/-- A non-empty decimal digit run (with Python's underscore rule). -/
def pyNatDigits (cs : List Char) : Option Nat :=
  match cs with
  | [] => none
  | c :: rest => if c.isDigit then pyDigitsAux rest (digitVal c) else none

/-- Model of Python `int(s)` on ASCII strings: optional surrounding
whitespace, an optional single sign, then a non-empty digit run. -/
def pyInt (cs : List Char) : Option Int :=
  match stripSpaces cs with
  | [] => none
  | c :: rest =>
    if c = '+' then (pyNatDigits rest).map (fun n => (n : Int))
    else if c = '-' then (pyNatDigits rest).map (fun n => -(n : Int))
    else (pyNatDigits (c :: rest)).map (fun n => (n : Int))

/-- Python `str.split` on a one-character separator: keeps empty pieces and
always returns at least one piece. -/
def splitChar (sep : Char) : List Char → List (List Char)
  | [] => [[]]
  | c :: rest =>
    match splitChar sep rest with
    | [] => [[c]]
    | p :: ps => if c = sep then [] :: p :: ps else (c :: p) :: ps

/-- `parse_dice_expression` (main.py 89-104): lowercase, split on `d`, demand
exactly two integer parts, both positive, then roll.  The random source is
made explicit: `g i` is the underlying uniform draw for die `i`, and
`random.randint 1 m` is modelled as `1 + g i % m`, which lies in `[1, m]`. -/
def parse_dice_expression (expr : List Char) (g : Nat → Nat) : Except String (List Nat) :=
  match splitChar 'd' (expr.map Char.toLower) with
  | [p0, p1] =>
    match pyInt p0, pyInt p1 with
    | some n, some m =>
      if n ≤ 0 ∨ m ≤ 0 then Except.error "Number of dice and sides must be positive."
      else Except.ok ((List.range n.toNat).map (fun i => 1 + g i % m.toNat))
    | _, _ => Except.error "invalid literal for int with base 10"
  | _ => Except.error "Dice expression must be in NdM format."

example : parse_dice_expression "2d6".data (fun _ => 0) = Except.ok [1, 1] := rfl

example : parse_dice_expression "2D6".data (fun i => 5 + i) = Except.ok [6, 1] := rfl

example : parse_dice_expression "d20".data (fun _ => 0)
    = Except.error "invalid literal for int with base 10" := rfl

example : parse_dice_expression "2d".data (fun _ => 0)
    = Except.error "invalid literal for int with base 10" := rfl

example : parse_dice_expression "2x20".data (fun _ => 0)
    = Except.error "Dice expression must be in NdM format." := rfl

example : parse_dice_expression "-1d6".data (fun _ => 0)
    = Except.error "Number of dice and sides must be positive." := rfl

example : parse_dice_expression "2d0".data (fun _ => 0)
    = Except.error "Number of dice and sides must be positive." := rfl

/-- The ASCII character for a decimal digit `d < 10`. -/
def digitChar48 (d : Nat) : Char := Char.ofNat (48 + d)

/-- The usual big-endian decimal numeral of `n`, as a character list. -/
def toDecimal (n : Nat) : List Char := (Nat.digits 10 n).reverse.map digitChar48

/-- Modelled from the spec's words (§4.1): the input matches the pattern
`<N>d<M>` case-insensitively, where both sides parse as positive integers.
Used to compare the spec's acceptance condition with the code's. -/
def specMatchesNdM (s : List Char) : Prop :=
  ∃ (a b : List Char) (n m : Int), s.map Char.toLower = a ++ 'd' :: b ∧
    pyInt a = some n ∧ 0 < n ∧ pyInt b = some m ∧ 0 < m

/-! ### Character registry (main.py lines 169-230).

`characters` is a Python dict keyed by `str(message.author.id)`; it is
modelled as an insertion-ordered association list, with Python dict update
semantics: assigning to an existing key replaces the value in place,
assigning a fresh key appends.  A record always carries the three fields
written at creation (line 175-179). -/

/-- One character record: `{"name": ..., "class": ..., "items": [...]}`. -/
structure Character where
  name : String
  cls : String
  items : List String
  deriving DecidableEq

/-- The `characters` dict. -/
abbrev Characters := List (String × Character)

/-- Python `characters.get(user_id)`: first (only) entry with this key. -/
def dictGet (k : String) : Characters → Option Character
  | [] => none
  | (k', v) :: rest => if k' = k then some v else dictGet k rest

/-- Python `characters[user_id] = v`: replace in place, or append if new. -/
def dictSet (k : String) (v : Character) : Characters → Characters
  | [] => [(k, v)]
  | (k', v') :: rest => if k' = k then (k, v) :: rest else (k', v') :: dictSet k v rest

/-- In-place mutation of the record found for `k` (Python mutates the dict
value through the reference returned by `.get`). -/
def dictModify (k : String) (f : Character → Character) : Characters → Characters
  | [] => []
  | (k', v) :: rest => if k' = k then (k', f v) :: rest else (k', v) :: dictModify k f rest

/-- Number of entries stored under key `k`. -/
def keyCount (k : String) (chars : Characters) : Nat :=
  (chars.map Prod.fst).count k

/-- Replies sent by the character-management branches of `on_message`. -/
inductive CharReply where
  | missingName
  | created (name : String)
  | noCharacter
  | missingArgument
  | classSet (cls name : String)
  | itemAdded (item name : String)
  deriving DecidableEq

/-- The `!createchar` branch (main.py 169-182): an empty name is rejected,
otherwise the user's record is replaced wholesale by a fresh one. -/
def createChar (user name : String) (chars : Characters) : Characters × CharReply :=
  if name = "" then (chars, CharReply.missingName)
  else (dictSet user ⟨name, "", []⟩ chars, CharReply.created name)

/-- The `!setclass` branch (main.py 201-214): missing record is checked
before the empty-argument check; on success only `class` is overwritten. -/
def setClassCmd (user cls : String) (chars : Characters) : Characters × CharReply :=
  match dictGet user chars with
  | none => (chars, CharReply.noCharacter)
  | some c =>
    if cls = "" then (chars, CharReply.missingArgument)
    else (dictModify user (fun ch => { ch with cls := cls }) chars,
          CharReply.classSet cls c.name)

/-- The `!additem` branch (main.py 217-230): missing record is checked
before the empty-argument check; on success the item is appended to `items`
(the `setdefault` call is the plain `items` list here, since every record in
the typed model carries the field). -/
def addItemCmd (user item : String) (chars : Characters) : Characters × CharReply :=
  match dictGet user chars with
  | none => (chars, CharReply.noCharacter)
  | some c =>
    if item = "" then (chars, CharReply.missingArgument)
    else (dictModify user (fun ch => { ch with items := ch.items ++ [item] }) chars,
          CharReply.itemAdded item c.name)

/-- `[c["name"] for c in characters.values()]` (main.py 239). -/
def listNames (chars : Characters) : List String :=
  chars.map (fun p => p.2.name)

/-! ### Combat coordinator (main.py lines 234-274).

`combat_state` is a Python dict read through `.get` with defaults
(`ongoing` false, `turn_order` `[]`, `current_index` `0`), so it is modelled
as a structure holding those three fields; the empty dict is
`⟨false, [], 0⟩`. -/

/-- The `combat_state` dict, read through its `.get` defaults. -/
structure CombatState where
  ongoing : Bool
  turn_order : List String
  current_index : Nat
  deriving DecidableEq

/-- The empty `combat_state` dict. -/
def emptyCombat : CombatState := ⟨false, [], 0⟩

/-- Replies sent by the combat branches of `on_message`; `indexError` marks
the branch where `turn_order[idx]` raises (no message is sent, the exception
escapes the handler), after the state was already mutated and saved. -/
inductive CombatReply where
  | alreadyActive
  | noCharacters
  | started (order : List String) (acting : String)
  | notActive
  | turnEnded (acting : String)
  | indexError
  | combatEnded
  deriving DecidableEq

/-- The `!startcombat` branch (main.py 234-251).  `random.shuffle` is passed
in as an explicit `shuffle` function; it always permutes its input, which
theorems record as a hypothesis. -/
def startCombatCmd (shuffle : List String → List String) (chars : Characters)
    (s : CombatState) : CombatState × CombatReply :=
  if s.ongoing then (s, CombatReply.alreadyActive)
  else
    let turn_order := listNames chars
    if turn_order.isEmpty then (s, CombatReply.noCharacters)
    else
      let shuffled := shuffle turn_order
      let s2 : CombatState := ⟨true, shuffled, 0⟩
      match shuffled[0]? with
      | some first => (s2, CombatReply.started shuffled first)
      | none => (s2, CombatReply.indexError)

/-- The `!endturn` branch (main.py 254-264): advance the index modulo the
order length (0 when the order is empty), store and save it, then look up
`turn_order[idx]` for the reply — which raises `IndexError` when the order
is empty. -/
def endTurnCmd (s : CombatState) : CombatState × CombatReply :=
  if s.ongoing = false then (s, CombatReply.notActive)
  else
    let turn_order := s.turn_order
    let idx := if turn_order.isEmpty then 0 else (s.current_index + 1) % turn_order.length
    let s2 : CombatState := { s with current_index := idx }
    match turn_order[idx]? with
    | some name => (s2, CombatReply.turnEnded name)
    | none => (s2, CombatReply.indexError)

/-- The `!endcombat` branch (main.py 267-274): `combat_state.clear()`. -/
def endCombatCmd (s : CombatState) : CombatState × CombatReply :=
  if s.ongoing = false then (s, CombatReply.notActive)
  else (emptyCombat, CombatReply.combatEnded)

/-- The name whose turn it is: `turn_order[current_index]`. -/
def actingName (s : CombatState) : Option String :=
  s.turn_order[s.current_index]?

/-- Apply the `!endturn` command `k` times, keeping the resulting state. -/
def endTurnTimes : Nat → CombatState → CombatState
  | 0, s => s
  | k + 1, s => endTurnTimes k (endTurnCmd s).1

/-- Combat states reachable from the empty (idle) state through the three
combat commands, over arbitrary character registries; `shuffle` may be any
function that permutes its input, as `random.shuffle` does. -/
inductive Reachable : CombatState → Prop
  | init : Reachable emptyCombat
  | start (shuffle : List String → List String) (chars : Characters) (s : CombatState)
      (hp : ∀ l, List.Perm (shuffle l) l) :
      Reachable s → Reachable (startCombatCmd shuffle chars s).1
  | endTurn (s : CombatState) : Reachable s → Reachable (endTurnCmd s).1
  | endCombat (s : CombatState) : Reachable s → Reachable (endCombatCmd s).1

/-! ### Persistence store (main.py lines 50-86).

`load_data` reads each JSON file inside `try/except Exception`: an absent
file leaves the global at its empty initial value, a failed open or parse is
logged and the global reset to `{}`; `save_characters`/`save_combat` wrap
the write in the same `try/except`, logging on failure.  The file system is
made explicit as a `FileState` per document slot, and a save attempt as an
`Except` outcome whose error is only logged. -/

/-- Outcome of probing one backing file. -/
inductive FileState (D : Type) where
  | absent
  | unreadable (msg : String)
  | readable (doc : D)

/-- One slot of `load_data` (main.py 50-68): total, never raises. -/
def loadDoc {D : Type} (empty : D) (fs : FileState D) : D :=
  match fs with
  | FileState.absent => empty
  | FileState.unreadable _ => empty
  | FileState.readable d => d

/-- `load_data` on the characters slot. -/
def loadCharactersDoc (fs : FileState Characters) : Characters :=
  loadDoc [] fs

/-- `load_data` on the combat slot. -/
def loadCombatDoc (fs : FileState CombatState) : CombatState :=
  loadDoc emptyCombat fs

/-- `save_characters` / `save_combat` (main.py 71-86): total, never raises;
a failed write only yields the logged message. -/
def saveDoc (write : Except String Unit) : Option String :=
  match write with
  | Except.ok _ => none
  | Except.error e => some e

/-! ### Lemmas about digits and `pyInt`. -/

lemma digitChar48_spec {d : Nat} (hd : d < 10) :
    (digitChar48 d).isDigit = true ∧ digitVal (digitChar48 d) = d ∧
    digitChar48 d ≠ '_' ∧ Char.toLower (digitChar48 d) = digitChar48 d ∧
    digitChar48 d ≠ 'd' ∧ isPySpace (digitChar48 d) = false ∧
    digitChar48 d ≠ '+' ∧ digitChar48 d ≠ '-' := by
  interval_cases d <;> exact ⟨rfl, rfl, by decide, by decide, by decide, rfl, by decide, by decide⟩

lemma toDecimal_mem_spec {n : Nat} {c : Char} (hc : c ∈ toDecimal n) :
    c.isDigit = true ∧ Char.toLower c = c ∧ c ≠ 'd' ∧ isPySpace c = false := by
  unfold toDecimal at hc
  obtain ⟨d, hd, rfl⟩ := List.mem_map.mp hc
  have hlt : d < 10 := Nat.digits_lt_base (by norm_num) (List.mem_reverse.mp hd)
  obtain ⟨a1, -, -, a4, a5, a6, -, -⟩ := digitChar48_spec hlt
  exact ⟨a1, a4, a5, a6⟩

lemma pyDigitsAux_digits : ∀ (ds : List Nat) (acc : Nat), (∀ d ∈ ds, d < 10) →
    pyDigitsAux (ds.map digitChar48) acc = some (ds.foldl (fun a d => a * 10 + d) acc)
  | [], _, _ => rfl
  | d :: ds, acc, h => by
    have hd : d < 10 := h d (List.mem_cons_self _ _)
    obtain ⟨h1, h2, h3, -, -, -, -, -⟩ := digitChar48_spec hd
    rw [List.map_cons, pyDigitsAux.eq_def]
    simp only [h3, h1, if_false, if_true, h2, List.foldl_cons, ite_false, ite_true]
    exact pyDigitsAux_digits ds (acc * 10 + d) (fun x hx => h x (List.mem_cons_of_mem _ hx))

lemma foldl_reverse_eq_ofDigits : ∀ (L : List Nat) (acc : Nat),
    L.reverse.foldl (fun a d => a * 10 + d) acc = acc * 10 ^ L.length + Nat.ofDigits 10 L
  | [], acc => by simp
  | d :: L, acc => by
    simp only [List.reverse_cons, List.foldl_append, foldl_reverse_eq_ofDigits L acc,
      Nat.ofDigits_cons, List.length_cons, List.foldl_cons, List.foldl_nil, pow_succ]
    ring

lemma pyNatDigits_toDecimal {n : Nat} (hn : 0 < n) : pyNatDigits (toDecimal n) = some n := by
  have hne : (Nat.digits 10 n).reverse ≠ [] := by
    simp [Nat.digits_ne_nil_iff_ne_zero, Nat.pos_iff_ne_zero.mp hn]
  obtain ⟨d, t, ht⟩ := List.exists_cons_of_ne_nil hne
  have hmem : ∀ x ∈ d :: t, x < 10 := by
    intro x hx
    exact Nat.digits_lt_base (by norm_num) (List.mem_reverse.mp (ht ▸ hx))
  have hd : d < 10 := hmem d (List.mem_cons_self _ _)
  obtain ⟨h1, h2, -, -, -, -, -, -⟩ := digitChar48_spec hd
  have hunf : toDecimal n = digitChar48 d :: t.map digitChar48 := by
    rw [toDecimal, ht, List.map_cons]
  rw [hunf]
  simp only [pyNatDigits, h1, if_true, h2]
  rw [pyDigitsAux_digits t d (fun x hx => hmem x (List.mem_cons_of_mem _ hx))]
  have hfold : t.foldl (fun a x => a * 10 + x) d
      = (d :: t).foldl (fun a x => a * 10 + x) 0 := by
    simp [List.foldl_cons]
  rw [hfold, ← ht, foldl_reverse_eq_ofDigits, Nat.ofDigits_digits]
  simp

lemma dropWhile_eq_self_of {p : Char → Bool} :
    ∀ {cs : List Char}, (∀ c ∈ cs, p c = false) → cs.dropWhile p = cs
  | [], _ => rfl
  | c :: cs, h => by
    have hc := h c (List.mem_cons_self _ _)
    simp [List.dropWhile, hc]

lemma stripSpaces_eq_self {cs : List Char} (h : ∀ c ∈ cs, isPySpace c = false) :
    stripSpaces cs = cs := by
  unfold stripSpaces
  rw [dropWhile_eq_self_of h,
    dropWhile_eq_self_of (fun c hc => h c (List.mem_reverse.mp hc)), List.reverse_reverse]

lemma pyInt_toDecimal {n : Nat} (hn : 0 < n) : pyInt (toDecimal n) = some (n : Int) := by
  have hne : (Nat.digits 10 n).reverse ≠ [] := by
    simp [Nat.digits_ne_nil_iff_ne_zero, Nat.pos_iff_ne_zero.mp hn]
  obtain ⟨d, t, ht⟩ := List.exists_cons_of_ne_nil hne
  have hd : d < 10 := Nat.digits_lt_base (by norm_num)
    (List.mem_reverse.mp (ht ▸ List.mem_cons_self d t))
  obtain ⟨-, -, -, -, -, -, a7, a8⟩ := digitChar48_spec hd
  have hunf : toDecimal n = digitChar48 d :: t.map digitChar48 := by
    rw [toDecimal, ht, List.map_cons]
  have hstrip : stripSpaces (toDecimal n) = toDecimal n :=
    stripSpaces_eq_self (fun c hc => (toDecimal_mem_spec hc).2.2.2)
  rw [pyInt, hstrip, hunf]
  simp only [if_neg a7, if_neg a8, ← hunf, pyNatDigits_toDecimal hn, Option.map_some]
  rfl

/-! ### Lemmas about `splitChar`. -/

lemma splitChar_ne_nil (sep : Char) : ∀ cs : List Char, splitChar sep cs ≠ []
  | [] => by simp [splitChar]
  | c :: cs => by
    obtain ⟨p, ps, hps⟩ := List.exists_cons_of_ne_nil (splitChar_ne_nil sep cs)
    simp only [splitChar, hps]
    split <;> simp

lemma splitChar_of_not_mem {sep : Char} :
    ∀ {cs : List Char}, sep ∉ cs → splitChar sep cs = [cs]
  | [], _ => rfl
  | c :: cs, h => by
    have hc : ¬(c = sep) := fun e => h (e ▸ List.mem_cons_self c cs)
    have htl : sep ∉ cs := fun m => h (List.mem_cons_of_mem _ m)
    simp only [splitChar, splitChar_of_not_mem htl, if_neg hc]

lemma splitChar_append {sep : Char} {b : List Char} :
    ∀ {a : List Char}, sep ∉ a → splitChar sep (a ++ sep :: b) = a :: splitChar sep b
  | [], _ => by
    obtain ⟨p, ps, hps⟩ := List.exists_cons_of_ne_nil (splitChar_ne_nil sep b)
    simp [splitChar, hps]
  | c :: a, h => by
    have hc : ¬(c = sep) := fun e => h (e ▸ List.mem_cons_self c a)
    have htl : sep ∉ a := fun m => h (List.mem_cons_of_mem _ m)
    have ih := splitChar_append (b := b) htl
    rw [List.cons_append, splitChar.eq_def]
    simp [ih, hc]

lemma splitChar_eq_single {sep : Char} :
    ∀ {cs b : List Char}, splitChar sep cs = [b] → cs = b ∧ sep ∉ cs
  | [], b, h => by
    simp only [splitChar, List.cons.injEq] at h
    exact ⟨h.1.symm ▸ rfl, by simp⟩
  | c :: cs, b, h => by
    obtain ⟨p, ps, hps⟩ := List.exists_cons_of_ne_nil (splitChar_ne_nil sep cs)
    simp only [splitChar, hps] at h
    by_cases hc : c = sep
    · rw [if_pos hc] at h
      exact absurd h (by simp)
    · rw [if_neg hc] at h
      obtain ⟨h1, h2⟩ := List.cons.injEq .. ▸ h
      have hps' : splitChar sep cs = [p] := by rw [hps, h2]
      obtain ⟨hcs, hnm⟩ := splitChar_eq_single hps'
      constructor
      · rw [← h1, hcs]
      · intro hm
        rcases List.mem_cons.mp hm with he | hm2
        · exact hc he.symm
        · exact hnm hm2

lemma splitChar_eq_pair {sep : Char} :
    ∀ {cs a b : List Char}, splitChar sep cs = [a, b] →
      cs = a ++ sep :: b ∧ sep ∉ a ∧ sep ∉ b
  | [], a, b, h => by
    simp only [splitChar] at h
    exact absurd h (by simp)
  | c :: cs, a, b, h => by
    obtain ⟨p, ps, hps⟩ := List.exists_cons_of_ne_nil (splitChar_ne_nil sep cs)
    simp only [splitChar, hps] at h
    by_cases hc : c = sep
    · rw [if_pos hc] at h
      obtain ⟨h1, h2, h3⟩ := by simpa using h
      have hps' : splitChar sep cs = [b] := by rw [hps, h2, h3]
      obtain ⟨hcs, hnm⟩ := splitChar_eq_single hps'
      subst h1
      refine ⟨?_, by simp, ?_⟩
      · rw [List.nil_append, hc, hcs]
      · rw [← hcs]; exact hnm
    · rw [if_neg hc] at h
      obtain ⟨h1, h2⟩ := by simpa using h
      have hps' : splitChar sep cs = [p, b] := by rw [hps, h2]
      obtain ⟨hcs, hp, hb⟩ := splitChar_eq_pair hps'
      refine ⟨?_, ?_, hb⟩
      · rw [← h1, hcs, List.cons_append]
      · rw [← h1]
        intro hm
        rcases List.mem_cons.mp hm with he | hm2
        · exact hc he.symm
        · exact hp hm2

lemma map_toLower_eq_self : ∀ {cs : List Char}, (∀ c ∈ cs, Char.toLower c = c) →
    cs.map Char.toLower = cs
  | [], _ => rfl
  | c :: cs, h => by
    rw [List.map_cons, h c (List.mem_cons_self _ _),
      map_toLower_eq_self (fun x hx => h x (List.mem_cons_of_mem _ hx))]

/-! ### Lemmas about the dict operations. -/

lemma dictGet_dictSet_self (k : String) (v : Character) :
    ∀ l : Characters, dictGet k (dictSet k v l) = some v
  | [] => by simp [dictSet, dictGet]
  | (k', v') :: rest => by
    by_cases h : k' = k
    · simp [dictSet, dictGet, h]
    · simp [dictSet, dictGet, h, dictGet_dictSet_self k v rest]

lemma dictGet_dictSet_other {u k : String} (hne : u ≠ k) (v : Character) :
    ∀ l : Characters, dictGet u (dictSet k v l) = dictGet u l
  | [] => by simp [dictSet, dictGet, Ne.symm hne]
  | (k', v') :: rest => by
    by_cases h : k' = k
    · subst h
      simp [dictSet, dictGet, Ne.symm hne]
    · simp [dictSet, dictGet, h, dictGet_dictSet_other hne v rest]

lemma keyCount_dictSet_self (k : String) (v : Character) :
    ∀ l : Characters, keyCount k l ≤ 1 → keyCount k (dictSet k v l) = 1
  | [], _ => by simp [keyCount, dictSet]
  | (k', v') :: rest, h => by
    by_cases hk : k' = k
    · subst hk
      simp [keyCount, dictSet, List.count_cons] at h ⊢
      omega
    · have hne : ¬(k = k') := fun e => hk e.symm
      simp [keyCount, dictSet, hk, hne, List.count_cons] at h ⊢
      exact keyCount_dictSet_self k v rest (by simpa [keyCount] using h)

lemma dictGet_dictModify_self (k : String) (f : Character → Character) :
    ∀ l : Characters, dictGet k (dictModify k f l) = (dictGet k l).map f
  | [] => by simp [dictModify, dictGet]
  | (k', v') :: rest => by
    by_cases h : k' = k
    · simp [dictModify, dictGet, h]
    · simp [dictModify, dictGet, h, dictGet_dictModify_self k f rest]

lemma dictGet_dictModify_other {u k : String} (hne : u ≠ k) (f : Character → Character) :
    ∀ l : Characters, dictGet u (dictModify k f l) = dictGet u l
  | [] => by simp [dictModify, dictGet]
  | (k', v') :: rest => by
    by_cases h : k' = k
    · subst h
      simp [dictModify, dictGet, Ne.symm hne]
    · simp [dictModify, dictGet, h, dictGet_dictModify_other hne f rest]

lemma map_fst_dictModify (k : String) (f : Character → Character) :
    ∀ l : Characters, (dictModify k f l).map Prod.fst = l.map Prod.fst
  | [] => rfl
  | (k', v') :: rest => by
    by_cases h : k' = k
    · simp [dictModify, h]
    · simp [dictModify, h, map_fst_dictModify k f rest]

/-! ### Lemmas about the combat commands. -/

lemma endTurnCmd_state (s : CombatState) (hon : s.ongoing = true)
    (hne : s.turn_order ≠ []) :
    (endTurnCmd s).1
      = { s with current_index := (s.current_index + 1) % s.turn_order.length } := by
  have hlt : (s.current_index + 1) % s.turn_order.length < s.turn_order.length :=
    Nat.mod_lt _ (List.length_pos.mpr hne)
  have hsome : s.turn_order[(s.current_index + 1) % s.turn_order.length]?
      = some (s.turn_order.get ⟨(s.current_index + 1) % s.turn_order.length, hlt⟩) :=
    List.getElem?_eq_getElem hlt
  have hie : s.turn_order.isEmpty = false := by
    simpa [List.isEmpty_iff] using hne
  simp [endTurnCmd, hon, hie, hsome]

lemma endTurnTimes_mod : ∀ (k : Nat) (s : CombatState), s.ongoing = true →
    s.turn_order ≠ [] → s.current_index < s.turn_order.length →
    endTurnTimes k s
      = { s with current_index := (s.current_index + k) % s.turn_order.length }
  | 0, s, _, _, hlt => by
    simp [endTurnTimes, Nat.mod_eq_of_lt hlt]
  | k + 1, s, hon, hne, _ => by
    have hstep := endTurnCmd_state s hon hne
    have hlt1 : (s.current_index + 1) % s.turn_order.length < s.turn_order.length :=
      Nat.mod_lt _ (List.length_pos.mpr hne)
    simp only [endTurnTimes, hstep]
    rw [endTurnTimes_mod k
      { s with current_index := (s.current_index + 1) % s.turn_order.length } hon hne hlt1]
    congr 1
    rw [Nat.mod_add_mod, Nat.add_assoc, Nat.add_comm 1 k]

/-! ### The claims. -/

/-- Claim C1: for every non-empty sequence of character names, a successful
combat start sets `turn_order` to a permutation of that sequence (same
length, same multiset), sets `current_index` to 0 and transitions to Active;
from that state, applying `end_turn` exactly `len turn_order` times returns
the acting name to the one reported at start. -/
theorem startcombat_perm_cycle
    (chars : Characters) (shuffle : List String → List String) (s : CombatState)
    (hp : ∀ l, List.Perm (shuffle l) l)
    (hidle : s.ongoing = false) (hne : listNames chars ≠ []) :
    ∃ (s2 : CombatState) (order : List String) (first : String),
      startCombatCmd shuffle chars s = (s2, CombatReply.started order first) ∧
      List.Perm order (listNames chars) ∧ order.length = (listNames chars).length ∧
      s2.ongoing = true ∧ s2.turn_order = order ∧ s2.current_index = 0 ∧
      actingName s2 = some first ∧
      endTurnTimes order.length s2 = s2 := by
  have hperm := hp (listNames chars)
  have hshne : shuffle (listNames chars) ≠ [] := by
    intro h0
    apply hne
    have hlen := hperm.length_eq
    rw [h0] at hlen
    exact List.length_eq_zero.mp hlen.symm
  obtain ⟨first, rest, hcons⟩ := List.exists_cons_of_ne_nil hshne
  have hie : (listNames chars).isEmpty = false := by
    simpa [List.isEmpty_iff] using hne
  refine ⟨⟨true, shuffle (listNames chars), 0⟩, shuffle (listNames chars), first,
    ?_, hperm, hperm.length_eq, rfl, rfl, rfl, ?_, ?_⟩
  · simp [startCombatCmd, hidle, hie, hcons]
  · simp [actingName, hcons]
  · have hlen : (0 : Nat) < (shuffle (listNames chars)).length := by
      rw [hcons]; simp
    rw [endTurnTimes_mod _ _ rfl hshne hlen]
    simp

theorem startcombat_perm_cycle_witness :
    ∃ (s2 : CombatState) (order : List String) (first : String),
      startCombatCmd id [("u1", ⟨"A", "", []⟩), ("u2", ⟨"B", "", []⟩)] emptyCombat
        = (s2, CombatReply.started order first) ∧
      List.Perm order (listNames [("u1", ⟨"A", "", []⟩), ("u2", ⟨"B", "", []⟩)]) ∧
      order.length = (listNames [("u1", ⟨"A", "", []⟩), ("u2", ⟨"B", "", []⟩)]).length ∧
      s2.ongoing = true ∧ s2.turn_order = order ∧ s2.current_index = 0 ∧
      actingName s2 = some first ∧
      endTurnTimes order.length s2 = s2 :=
  startcombat_perm_cycle [("u1", ⟨"A", "", []⟩), ("u2", ⟨"B", "", []⟩)] id emptyCombat
    (fun l => List.Perm.refl l) rfl (by decide)

/-- Claim C2: in every combat state reachable through the commands start,
end_turn and end from Idle, whenever `ongoing` is true, `turn_order` is
non-empty and `current_index` is a valid index into it. -/
theorem combat_reachable_invariant (s : CombatState) (hr : Reachable s) :
    s.ongoing = true → s.turn_order ≠ [] ∧ s.current_index < s.turn_order.length := by
  induction hr with
  | init => intro h; simp [emptyCombat] at h
  | start shuffle chars s0 hp hr ih =>
    by_cases hon : s0.ongoing
    · simpa [startCombatCmd, hon] using ih
    · by_cases hie : (listNames chars).isEmpty
      · simp [startCombatCmd, hon, hie]
      · have hne2 : listNames chars ≠ [] := by simpa [List.isEmpty_iff] using hie
        have hshne : shuffle (listNames chars) ≠ [] := by
          intro h0
          apply hne2
          have hlen := (hp (listNames chars)).length_eq
          rw [h0] at hlen
          exact List.length_eq_zero.mp hlen.symm
        obtain ⟨first, rest, hcons⟩ := List.exists_cons_of_ne_nil hshne
        intro _
        have hred : (startCombatCmd shuffle chars s0).1 = ⟨true, first :: rest, 0⟩ := by
          simp [startCombatCmd, hon, hie, hcons]
        rw [hred]
        simp
  | endTurn s0 hr ih =>
    by_cases hon : s0.ongoing
    · by_cases hie : s0.turn_order.isEmpty
      · intro _
        exact ((ih hon).1 (by simpa [List.isEmpty_iff] using hie)).elim
      · have hne2 : s0.turn_order ≠ [] := by simpa [List.isEmpty_iff] using hie
        rw [endTurnCmd_state s0 hon hne2]
        intro _
        exact ⟨hne2, Nat.mod_lt _ (List.length_pos.mpr hne2)⟩
    · have hof : s0.ongoing = false := by simpa using hon
      simp [endTurnCmd, hof]
  | endCombat s0 hr ih =>
    by_cases hon : s0.ongoing
    · simp [endCombatCmd, hon, emptyCombat]
    · have hof : s0.ongoing = false := by simpa using hon
      simp [endCombatCmd, hof]

theorem combat_reachable_invariant_witness :
    (⟨true, ["A"], 0⟩ : CombatState).turn_order ≠ [] ∧
      (⟨true, ["A"], 0⟩ : CombatState).current_index
        < (⟨true, ["A"], 0⟩ : CombatState).turn_order.length :=
  combat_reachable_invariant ⟨true, ["A"], 0⟩
    (Reachable.start id [("u", ⟨"A", "", []⟩)] emptyCombat
      (fun l => List.Perm.refl l) Reachable.init)
    rfl

/-- Claim C3: for every pair of positive integers N and M, rolling the
expression `NdM` succeeds and returns exactly N values each in `[1, M]`,
whatever the random source draws; for N = 1 and M = 1 it returns `[1]`. -/
theorem roll_valid_count_range (N M : Nat) (g : Nat → Nat) (hN : 0 < N) (hM : 0 < M) :
    ∃ rolls, parse_dice_expression (toDecimal N ++ 'd' :: toDecimal M) g
        = Except.ok rolls ∧
      rolls.length = N ∧ (∀ r ∈ rolls, 1 ≤ r ∧ r ≤ M) ∧
      (N = 1 → M = 1 → rolls = [1]) := by
  have hmap : (toDecimal N ++ 'd' :: toDecimal M).map Char.toLower
      = toDecimal N ++ 'd' :: toDecimal M := by
    apply map_toLower_eq_self
    intro c hc
    rcases List.mem_append.mp hc with h | h
    · exact (toDecimal_mem_spec h).2.1
    · rcases List.mem_cons.mp h with rfl | h
      · decide
      · exact (toDecimal_mem_spec h).2.1
  have hndA : 'd' ∉ toDecimal N := fun hm => (toDecimal_mem_spec hm).2.2.1 rfl
  have hndB : 'd' ∉ toDecimal M := fun hm => (toDecimal_mem_spec hm).2.2.1 rfl
  have hsplit : splitChar 'd' ((toDecimal N ++ 'd' :: toDecimal M).map Char.toLower)
      = [toDecimal N, toDecimal M] := by
    rw [hmap, splitChar_append hndA, splitChar_of_not_mem hndB]
  have hcond : ¬((N : Int) ≤ 0 ∨ (M : Int) ≤ 0) := by
    push_neg
    exact ⟨by exact_mod_cast hN, by exact_mod_cast hM⟩
  refine ⟨(List.range N).map (fun i => 1 + g i % M), ?_, by simp, ?_, ?_⟩
  · unfold parse_dice_expression
    rw [hsplit]
    simp only [pyInt_toDecimal hN, pyInt_toDecimal hM, if_neg hcond, Int.toNat_natCast]
  · intro r hr
    obtain ⟨i, -, rfl⟩ := List.mem_map.mp hr
    have := Nat.mod_lt (g i) hM
    omega
  · intro h1 h2
    subst h1
    subst h2
    simp [Nat.mod_one]

theorem roll_valid_count_range_witness :
    (∃ rolls, parse_dice_expression (toDecimal 2 ++ 'd' :: toDecimal 6) (fun i => i)
        = Except.ok rolls ∧
      rolls.length = 2 ∧ (∀ r ∈ rolls, 1 ≤ r ∧ r ≤ 6) ∧
      (2 = 1 → 6 = 1 → rolls = [1])) ∧
    (∃ rolls, parse_dice_expression (toDecimal 1 ++ 'd' :: toDecimal 1) (fun i => i)
        = Except.ok rolls ∧
      rolls.length = 1 ∧ (∀ r ∈ rolls, 1 ≤ r ∧ r ≤ 1) ∧
      (1 = 1 → 1 = 1 → rolls = [1])) :=
  ⟨roll_valid_count_range 2 6 (fun i => i) (by decide) (by decide),
   roll_valid_count_range 1 1 (fun i => i) (by decide) (by decide)⟩

lemma parse_ok_matches {s : List Char} {g : Nat → Nat} {rolls : List Nat}
    (hres : parse_dice_expression s g = Except.ok rolls) : specMatchesNdM s := by
  unfold parse_dice_expression at hres
  rcases hsp : splitChar 'd' (s.map Char.toLower) with _ | ⟨p0, ps⟩
  · simp only [hsp] at hres
    exact absurd hres (by simp)
  · rcases ps with _ | ⟨p1, ps2⟩
    · simp only [hsp] at hres
      exact absurd hres (by simp)
    · rcases ps2 with _ | ⟨p2, ps3⟩
      · simp only [hsp] at hres
        rcases h0 : pyInt p0 with _ | n
        · simp only [h0] at hres
          exact absurd hres (by simp)
        · rcases h1 : pyInt p1 with _ | m
          · simp only [h0, h1] at hres
            exact absurd hres (by simp)
          · simp only [h0, h1] at hres
            by_cases hcond : (n ≤ 0 ∨ m ≤ 0)
            · rw [if_pos hcond] at hres
              exact absurd hres (by simp)
            · push_neg at hcond
              obtain ⟨hcs, -, -⟩ := splitChar_eq_pair hsp
              exact ⟨p0, p1, n, m, hcs, h0, hcond.1, h1, hcond.2⟩
      · simp only [hsp] at hres
        exact absurd hres (by simp)

/-- Claim C4: every input that does not match the pattern `<N>d<M>`
(case-insensitive, both parts parsing as positive integers) is rejected with
an error message; in particular `d20`, `2d`, `2x20`, `-1d6` and `2d0` all
fail this way. -/
theorem roll_invalid_rejected :
    (∀ (s : List Char) (g : Nat → Nat), ¬ specMatchesNdM s →
      ∃ msg, parse_dice_expression s g = Except.error msg) ∧
    (∀ g, parse_dice_expression "d20".data g
      = Except.error "invalid literal for int with base 10") ∧
    (∀ g, parse_dice_expression "2d".data g
      = Except.error "invalid literal for int with base 10") ∧
    (∀ g, parse_dice_expression "2x20".data g
      = Except.error "Dice expression must be in NdM format.") ∧
    (∀ g, parse_dice_expression "-1d6".data g
      = Except.error "Number of dice and sides must be positive.") ∧
    (∀ g, parse_dice_expression "2d0".data g
      = Except.error "Number of dice and sides must be positive.") := by
  refine ⟨?_, fun g => rfl, fun g => rfl, fun g => rfl, fun g => rfl, fun g => rfl⟩
  intro s g hn
  rcases hres : parse_dice_expression s g with msg | rolls
  · exact ⟨msg, rfl⟩
  · exact (hn (parse_ok_matches hres)).elim

theorem roll_invalid_rejected_witness :
    ∃ msg, parse_dice_expression "2x20".data (fun _ => 0) = Except.error msg :=
  roll_invalid_rejected.1 "2x20".data (fun _ => 0)
    (by
      rintro ⟨a, b, n, m, hcs, -⟩
      have hd : 'd' ∈ a ++ 'd' :: b := List.mem_append_right a (List.mem_cons_self _ _)
      rw [← hcs] at hd
      exact absurd hd (by decide))

/-- Claim C5: for every user and non-empty name, create always succeeds and
replaces any existing record with `{name, class: "", items: []}`; creating
twice for the same user leaves exactly one record, fully reset. -/
theorem createchar_replaces (user n1 n2 : String) (chars : Characters)
    (h1 : n1 ≠ "") (h2 : n2 ≠ "") (hnd : (chars.map Prod.fst).Nodup) :
    ∃ chars1 chars2,
      createChar user n1 chars = (chars1, CharReply.created n1) ∧
      dictGet user chars1 = some ⟨n1, "", []⟩ ∧ keyCount user chars1 = 1 ∧
      createChar user n2 chars1 = (chars2, CharReply.created n2) ∧
      dictGet user chars2 = some ⟨n2, "", []⟩ ∧ keyCount user chars2 = 1 := by
  have c1 : keyCount user (dictSet user ⟨n1, "", []⟩ chars) = 1 :=
    keyCount_dictSet_self user _ chars (List.nodup_iff_count_le_one.mp hnd user)
  have c2 : keyCount user (dictSet user ⟨n2, "", []⟩ (dictSet user ⟨n1, "", []⟩ chars)) = 1 :=
    keyCount_dictSet_self user _ _ (le_of_eq c1)
  exact ⟨dictSet user ⟨n1, "", []⟩ chars,
    dictSet user ⟨n2, "", []⟩ (dictSet user ⟨n1, "", []⟩ chars),
    by simp [createChar, h1], dictGet_dictSet_self user _ chars, c1,
    by simp [createChar, h2], dictGet_dictSet_self user _ _, c2⟩

theorem createchar_replaces_witness :
    ∃ chars1 chars2,
      createChar "u" "Bram" [] = (chars1, CharReply.created "Bram") ∧
      dictGet "u" chars1 = some ⟨"Bram", "", []⟩ ∧ keyCount "u" chars1 = 1 ∧
      createChar "u" "Zel" chars1 = (chars2, CharReply.created "Zel") ∧
      dictGet "u" chars2 = some ⟨"Zel", "", []⟩ ∧ keyCount "u" chars2 = 1 :=
  createchar_replaces "u" "Bram" "Zel" [] (by decide) (by decide) (by simp)

/-- Claim C6: for a user with no record, add_item fails with NoCharacter and
leaves the characters mapping unchanged; with a record and a non-empty item
name, it appends the item to that record's items list. -/
theorem additem_requires_character (user item : String) (chars : Characters) :
    (dictGet user chars = none →
      addItemCmd user item chars = (chars, CharReply.noCharacter)) ∧
    (∀ c, dictGet user chars = some c → item ≠ "" →
      ∃ chars2, addItemCmd user item chars = (chars2, CharReply.itemAdded item c.name) ∧
        dictGet user chars2 = some ⟨c.name, c.cls, c.items ++ [item]⟩) := by
  constructor
  · intro h
    simp [addItemCmd, h]
  · intro c hc hi
    refine ⟨dictModify user (fun ch => { ch with items := ch.items ++ [item] }) chars,
      by simp [addItemCmd, hc, hi], ?_⟩
    rw [dictGet_dictModify_self, hc]
    rfl

theorem additem_requires_character_witness :
    (addItemCmd "u" "Staff" [] = ([], CharReply.noCharacter)) ∧
    (∃ chars2, addItemCmd "u" "Staff" [("u", ⟨"Bram", "", []⟩)]
        = (chars2, CharReply.itemAdded "Staff" "Bram") ∧
      dictGet "u" chars2 = some ⟨"Bram", "", [] ++ ["Staff"]⟩) :=
  ⟨(additem_requires_character "u" "Staff" []).1 rfl,
   (additem_requires_character "u" "Staff" [("u", ⟨"Bram", "", []⟩)]).2
     ⟨"Bram", "", []⟩ (by simp [dictGet]) (by decide)⟩

/-- Claim C7: start fails with AlreadyActive while a combat is Active;
end_turn and end fail with NotActive while Idle; start with zero known
characters fails with NoCharacters; every such rejection leaves the combat
state unchanged. -/
theorem combat_misuse_rejected (shuffle : List String → List String)
    (chars : Characters) (s : CombatState) :
    (s.ongoing = true →
      startCombatCmd shuffle chars s = (s, CombatReply.alreadyActive)) ∧
    (s.ongoing = false → listNames chars = [] →
      startCombatCmd shuffle chars s = (s, CombatReply.noCharacters)) ∧
    (s.ongoing = false → endTurnCmd s = (s, CombatReply.notActive)) ∧
    (s.ongoing = false → endCombatCmd s = (s, CombatReply.notActive)) := by
  refine ⟨fun h => by simp [startCombatCmd, h],
    fun h he => by simp [startCombatCmd, h, he],
    fun h => by simp [endTurnCmd, h],
    fun h => by simp [endCombatCmd, h]⟩

theorem combat_misuse_rejected_witness :
    (startCombatCmd id [("u", ⟨"A", "", []⟩)] ⟨true, ["A"], 0⟩
      = (⟨true, ["A"], 0⟩, CombatReply.alreadyActive)) ∧
    (startCombatCmd id [] emptyCombat = (emptyCombat, CombatReply.noCharacters)) ∧
    (endTurnCmd emptyCombat = (emptyCombat, CombatReply.notActive)) ∧
    (endCombatCmd emptyCombat = (emptyCombat, CombatReply.notActive)) :=
  ⟨(combat_misuse_rejected id [("u", ⟨"A", "", []⟩)] ⟨true, ["A"], 0⟩).1 rfl,
   (combat_misuse_rejected id [] emptyCombat).2.1 rfl rfl,
   (combat_misuse_rejected id [] emptyCombat).2.2.1 rfl,
   (combat_misuse_rejected id [] emptyCombat).2.2.2 rfl⟩

/-- Claim C8, as stated, is false on the code: with `ongoing` true and an
empty `turn_order`, the `!endturn` branch does not complete and report an
acting name — after storing index 0 and saving, `turn_order[idx]` raises
`IndexError` (main.py 263), so no reply of any name is produced. -/
theorem endturn_empty_not_reported :
    ¬ ∃ (s2 : CombatState) (acting : String),
        endTurnCmd ⟨true, [], 0⟩ = (s2, CombatReply.turnEnded acting) := by
  rintro ⟨s2, acting, h⟩
  simp [endTurnCmd] at h

/-- Claim C8 amended: when end_turn runs with `ongoing` true but `turn_order`
empty (a state reachable only by tampering with the persisted document), it
treats the new index as 0 and saves it, but then raising `IndexError` while
building the report — the command errors out without reporting a name. -/
theorem endturn_empty_index_error (s : CombatState) (hon : s.ongoing = true)
    (hemp : s.turn_order = []) :
    endTurnCmd s = ({ s with current_index := 0 }, CombatReply.indexError) := by
  simp [endTurnCmd, hon, hemp]

theorem endturn_empty_index_error_witness :
    endTurnCmd ⟨true, [], 7⟩ = (⟨true, [], 0⟩, CombatReply.indexError) :=
  endturn_empty_index_error ⟨true, [], 7⟩ rfl rfl

/-- Claim C9: for each document slot (characters, combat), load returns the
empty mapping when the backing file is absent and when it is unreadable or
malformed (the failure being only logged), and never raises; a failed save
likewise only logs its message and returns without raising. -/
theorem load_save_total :
    (loadCharactersDoc FileState.absent = [] ∧
      (∀ msg, loadCharactersDoc (FileState.unreadable msg) = []) ∧
      (∀ d, loadCharactersDoc (FileState.readable d) = d)) ∧
    (loadCombatDoc FileState.absent = emptyCombat ∧
      (∀ msg, loadCombatDoc (FileState.unreadable msg) = emptyCombat) ∧
      (∀ d, loadCombatDoc (FileState.readable d) = d)) ∧
    (∀ e, saveDoc (Except.error e) = some e) ∧
    saveDoc (Except.ok ()) = none :=
  ⟨⟨rfl, fun _ => rfl, fun _ => rfl⟩, ⟨rfl, fun _ => rfl, fun _ => rfl⟩,
   fun _ => rfl, rfl⟩

/-- Claim C10: a successful set_class modifies only the class field of the
issuing user's record and a successful add_item only its items field; name,
the other fields and every other user's record are unchanged. -/
theorem setclass_additem_frame (user : String) (chars : Characters) (c : Character)
    (hc : dictGet user chars = some c) :
    (∀ cls, cls ≠ "" →
      ∃ chars2, setClassCmd user cls chars = (chars2, CharReply.classSet cls c.name) ∧
        dictGet user chars2 = some ⟨c.name, cls, c.items⟩ ∧
        (∀ u, u ≠ user → dictGet u chars2 = dictGet u chars) ∧
        chars2.map Prod.fst = chars.map Prod.fst) ∧
    (∀ item, item ≠ "" →
      ∃ chars2, addItemCmd user item chars = (chars2, CharReply.itemAdded item c.name) ∧
        dictGet user chars2 = some ⟨c.name, c.cls, c.items ++ [item]⟩ ∧
        (∀ u, u ≠ user → dictGet u chars2 = dictGet u chars) ∧
        chars2.map Prod.fst = chars.map Prod.fst) := by
  constructor
  · intro cls hcls
    refine ⟨dictModify user (fun ch => { ch with cls := cls }) chars,
      by simp [setClassCmd, hc, hcls], ?_, ?_, map_fst_dictModify user _ chars⟩
    · rw [dictGet_dictModify_self, hc]
      rfl
    · intro u hu
      exact dictGet_dictModify_other hu _ chars
  · intro item hitem
    refine ⟨dictModify user (fun ch => { ch with items := ch.items ++ [item] }) chars,
      by simp [addItemCmd, hc, hitem], ?_, ?_, map_fst_dictModify user _ chars⟩
    · rw [dictGet_dictModify_self, hc]
      rfl
    · intro u hu
      exact dictGet_dictModify_other hu _ chars

theorem setclass_additem_frame_witness :
    (∃ chars2, setClassCmd "u" "Wizard" [("u", ⟨"Bram", "", []⟩), ("v", ⟨"Zel", "", []⟩)]
        = (chars2, CharReply.classSet "Wizard" "Bram") ∧
      dictGet "u" chars2 = some ⟨"Bram", "Wizard", []⟩ ∧
      (∀ u, u ≠ "u" →
        dictGet u chars2 = dictGet u [("u", ⟨"Bram", "", []⟩), ("v", ⟨"Zel", "", []⟩)]) ∧
      chars2.map Prod.fst
        = [("u", (⟨"Bram", "", []⟩ : Character)), ("v", ⟨"Zel", "", []⟩)].map Prod.fst) ∧
    (∃ chars2, addItemCmd "u" "Staff" [("u", ⟨"Bram", "", []⟩), ("v", ⟨"Zel", "", []⟩)]
        = (chars2, CharReply.itemAdded "Staff" "Bram") ∧
      dictGet "u" chars2 = some ⟨"Bram", "", [] ++ ["Staff"]⟩ ∧
      (∀ u, u ≠ "u" →
        dictGet u chars2 = dictGet u [("u", ⟨"Bram", "", []⟩), ("v", ⟨"Zel", "", []⟩)]) ∧
      chars2.map Prod.fst
        = [("u", (⟨"Bram", "", []⟩ : Character)), ("v", ⟨"Zel", "", []⟩)].map Prod.fst) :=
  ⟨(setclass_additem_frame "u" [("u", ⟨"Bram", "", []⟩), ("v", ⟨"Zel", "", []⟩)]
      ⟨"Bram", "", []⟩ (by simp [dictGet])).1 "Wizard" (by decide),
   (setclass_additem_frame "u" [("u", ⟨"Bram", "", []⟩), ("v", ⟨"Zel", "", []⟩)]
      ⟨"Bram", "", []⟩ (by simp [dictGet])).2 "Staff" (by decide)⟩

end DndBot
